import Mathlib

/-!
Formal model of the simple-dsp core: the bidding engine, the budget
manager and the frequency controller, together with proofs about the
behaviour of these components.  Go floating-point amounts are modelled
as rationals, Go maps and the Redis key space as association lists, and
wall-clock instants as integers.
-/

namespace SimpleDsp

/-- Go `int64(x)` conversion applied to a float (modelled as a rational):
truncation toward zero. -/
def goInt64 (q : ℚ) : ℤ := if 0 ≤ q then ⌊q⌋ else ⌈q⌉

/-- Lookup in an association list keyed by strings (models reading a Go map
or a Redis key: absent keys yield `none`). -/
def lookupAssoc {α : Type} (l : List (String × α)) (k : String) : Option α :=
  (l.find? (fun p => p.1 == k)).map Prod.snd

/-- Update (or insert) a key in an association list (models writing a Go map
entry or a Redis key). -/
def setAssoc {α : Type} (l : List (String × α)) (k : String) (v : α) : List (String × α) :=
  match l with
  | [] => [(k, v)]
  | (k', v') :: rest => if k' == k then (k, v) :: rest else (k', v') :: setAssoc rest k v

/-! ## Budget manager (`internal/budget/manager.go`) -/

/-- The in-memory `Budget` record of `internal/budget/manager.go`.  Times are
integer instants, money fields are rationals (Go `float64`). -/
structure Budget where
  id : String
  btype : String
  amount : ℚ
  spent : ℚ
  startTime : ℤ
  endTime : ℤ
  updateTime : ℤ
  status : String
  description : String
  deriving Repr, DecidableEq

/-- The state touched by `Manager.CheckAndDeduct`: the in-memory budget map
and the remote Redis integer counters (minor currency units). -/
structure MgrState where
  budgets : List (String × Budget)
  counter : List (String × ℤ)
  deriving Repr, DecidableEq

/-- The error values of `internal/budget/errors.go` that `CheckAndDeduct`
can return (`none` in `DeductResult.err` models a nil Go error). -/
inductive BudgetErr where
  | notFound
  | inactive
  | expired
  | exceeded
  deriving Repr, DecidableEq

/-- The full outcome of one `CheckAndDeduct` call: the `(bool, error)`
return pair and the post-state. -/
structure DeductResult where
  ok : Bool
  err : Option BudgetErr
  state : MgrState
  deriving Repr, DecidableEq

/-- The Redis key `budget:spent:{budget_id}` (from `getBudgetKey`). -/
def getBudgetKey (budgetID : String) : String := "budget:spent:" ++ budgetID

/-- `Manager.CheckAndDeduct` from `internal/budget/manager.go`: look up the
in-memory budget, validate status, validity window (`time.Before`/`time.After`
are strict comparisons) and the cap against the in-memory snapshot, then
perform the remote atomic `IncrBy` of `int64(amount*100)` (an absent counter
key starts at 0) and refresh the in-memory `Spent` from its return value. -/
def checkAndDeduct (st : MgrState) (now : ℤ) (budgetID : String) (amount : ℚ) : DeductResult :=
  match lookupAssoc st.budgets budgetID with
  | none => ⟨false, some .notFound, st⟩
  | some b =>
    if b.status ≠ "active" then ⟨false, some .inactive, st⟩
    else if now < b.startTime ∨ b.endTime < now then ⟨false, some .expired, st⟩
    else if b.amount < b.spent + amount then ⟨false, some .exceeded, st⟩
    else
      let key := getBudgetKey budgetID
      let newSpent := (lookupAssoc st.counter key).getD 0 + goInt64 (amount * 100)
      let b' := { b with spent := (newSpent : ℚ) / 100, updateTime := now }
      ⟨true, none,
        { budgets := setAssoc st.budgets budgetID b',
          counter := setAssoc st.counter key newSpent }⟩

/-! ## Frequency controller (`internal/frequency/controller.go`) -/

/-- Digits-only parse used by `goAtoi`; `none` on an empty or non-digit
string. -/
def digitsToNat (cs : List Char) : Option ℕ :=
  if cs = [] ∨ ¬ cs.all Char.isDigit then none
  else some (cs.foldl (fun n c => 10 * n + (c.toNat - 48)) 0)

/-- Go `strconv.Atoi` with its error ignored, as the controller does when
parsing stored config fields: an unparsable string yields 0 (64-bit overflow
is out of scope for the inputs considered here). -/
def goAtoi (s : String) : ℤ :=
  match s.toList with
  | '-' :: rest =>
    match digitsToNat rest with
    | some n => -(n : ℤ)
    | none => 0
  | cs =>
    match digitsToNat cs with
    | some n => (n : ℤ)
    | none => 0

/-- The frequency `Config` restricted to the two counter limits that
`CheckImpression`/`CheckClick` read (the QPS and time-window fields are
never consulted by the checks modelled here). -/
structure FreqConfig where
  impressionLimit : ℤ
  clickLimit : ℤ
  deriving Repr, DecidableEq

/-- The Redis state seen by the frequency controller: integer counter keys
and hash-of-strings config keys.  A key absent from `counters` models both
a never-written and an expired (TTL-lapsed) Redis key. -/
structure FreqState where
  counters : List (String × ℤ)
  configs : List (String × List (String × String))
  deriving Repr, DecidableEq

/-- The impression counter key `freq:imp:{user}:{ad}:{day}` built by
`CheckImpression`/`RecordImpression` (the third component is the calendar day
`time.Now().Format("20060102")`). -/
def freqImpKey (userID adID day : String) : String :=
  "freq:imp:" ++ userID ++ ":" ++ adID ++ ":" ++ day

/-- The config key `freq:config:{ad}`. -/
def freqConfigKey (adID : String) : String := "freq:config:" ++ adID

/-- The system default configuration used when no override hash is stored:
10 impressions and 3 clicks per day. -/
def defaultFreqConfig : FreqConfig := ⟨10, 3⟩

/-- `Controller.getConfig`: `HGetAll` on the config key; an empty hash (the
Redis result for an absent key) selects the system default, otherwise each
field is parsed with `strconv.Atoi`, errors ignored (a missing field parses
as the empty string). -/
def getConfig (st : FreqState) (adID : String) : FreqConfig :=
  match lookupAssoc st.configs (freqConfigKey adID) with
  | none => defaultFreqConfig
  | some data =>
    if data = [] then defaultFreqConfig
    else
      ⟨goAtoi ((lookupAssoc data "impression_limit").getD ""),
       goAtoi ((lookupAssoc data "click_limit").getD "")⟩

/-- `Controller.CheckImpression`: read the day-scoped counter (an absent key
reads as 0, the `redis.Nil` branch) and allow exactly when it is still below
the configured impression limit. -/
def checkImpression (st : FreqState) (userID adID day : String) : Bool :=
  let config := getConfig st adID
  let count := (lookupAssoc st.counters (freqImpKey userID adID day)).getD 0
  if config.impressionLimit ≤ count then false else true

/-- `Controller.RecordImpression`: atomically increment the day-scoped
counter (the TTL refresh has no effect on the stored value). -/
def recordImpression (st : FreqState) (userID adID day : String) : FreqState :=
  let key := freqImpKey userID adID day
  { st with counters := setAssoc st.counters key ((lookupAssoc st.counters key).getD 0 + 1) }

/-- Redis TTL expiry of a key: the key disappears from the store. -/
def expireKey (st : FreqState) (key : String) : FreqState :=
  { st with counters := st.counters.filter (fun p => p.1 != key) }

/-! ## Strategy repository (`internal/bidding/repository.go`) -/

/-- One row of the `bid_strategies` table, with the columns
`UpdateBidStrategy` reads or writes (`is_price_locked` is the integer column
the update reads back before choosing its SQL statement). -/
structure StrategyRow where
  name : String
  bidType : String
  price : ℚ
  dailyBudget : ℚ
  status : ℤ
  isPriceLocked : ℤ
  deriving Repr, DecidableEq

/-- The fields of the incoming strategy that `UpdateBidStrategy` binds into
its UPDATE statements. -/
structure StrategyUpdate where
  id : String
  name : String
  price : ℚ
  dailyBudget : ℚ
  status : ℤ
  deriving Repr, DecidableEq

/-- `MySQLRepository.UpdateBidStrategy`: read `is_price_locked` for the row
(no row yields the `sql.ErrNoRows` error of `GetContext`); when the flag is 1
update name, daily budget and status only, otherwise also the price. -/
def updateBidStrategy (table : List (String × StrategyRow)) (s : StrategyUpdate) :
    Except String (List (String × StrategyRow)) :=
  match lookupAssoc table s.id with
  | none => Except.error "sql: no rows in result set"
  | some row =>
    if row.isPriceLocked = 1 then
      Except.ok (setAssoc table s.id
        { row with name := s.name, dailyBudget := s.dailyBudget, status := s.status })
    else
      Except.ok (setAssoc table s.id
        { row with name := s.name, price := s.price,
                   dailyBudget := s.dailyBudget, status := s.status })

/-! ## Bidding engine (`internal/bidding`, strategy-based engine) -/

/-- `BidStrategy` as the engine consumes it (string identifier, billing
type, price — CPC in major units, CPM in minor units — status flag and the
price-lock flag). -/
structure BidStrategy where
  id : String
  name : String
  bidType : String
  price : ℚ
  status : ℤ
  dailyBudget : ℤ
  isPriceLocked : Bool
  deriving Repr, DecidableEq

/-- `AdSlot` of a bid request. -/
structure AdSlot where
  slotID : String
  width : ℤ
  height : ℤ
  minPrice : ℚ
  maxPrice : ℚ
  position : String
  adType : String
  bidType : String
  deriving Repr, DecidableEq

/-- `BidRequest`. -/
structure BidRequest where
  requestID : String
  userID : String
  deviceID : String
  ip : String
  adSlots : List AdSlot
  deriving Repr, DecidableEq

/-- The fields of `BidResponse` that carry the bidding decision (the markup
and win-notice strings are deterministic templates of these fields). -/
structure BidResponse where
  adID : String
  bidPrice : ℚ
  bidType : String
  deriving Repr, DecidableEq

/-- `BidCandidate`: a strategy paired with its computed price and predicted
click rate for one evaluation pass. -/
structure BidCandidate where
  strategy : BidStrategy
  bidPrice : ℚ
  ctr : ℚ
  deriving Repr, DecidableEq

/-- The request-level errors `ProcessBid` can return: the invalid-request
guard, a propagated repository-fetch failure, and no surviving candidate. -/
inductive BidError where
  | invalidRequest
  | repoFailure (msg : String)
  | noAvailableAds
  deriving Repr, DecidableEq

/-- The externally visible calls `ProcessBid` makes on its collaborators
(the repository, the frequency controller and the budget manager). -/
inductive Effect where
  | listStrategies
  | checkImpression (userID adID : String)
  | checkAndDeduct (budgetID : String) (amount : ℚ)
  | recordImpression (userID adID : String)
  deriving Repr, DecidableEq

/-- The engine's collaborators for one request: the repository answer and,
per call, the frequency and budget answers.  `none` models a call that
returns a non-nil error; `some b` a nil error with result `b`. -/
structure Env where
  listStrategies : Except String (List BidStrategy)
  freqCheck : String → String → Option Bool
  budgetCheck : String → ℚ → Option Bool

/-- `Engine.predictCTR`: the placeholder model returns the constant 0.01. -/
def predictCTR (_strategy : BidStrategy) (_userID : String) : ℚ := 1 / 100

/-- `Engine.calculateFinalBidPrice`: CPC bids are `price * ctr`, CPM bids are
`price / 1000`, any other billing type yields 0. -/
def calculateFinalBidPrice (strategy : BidStrategy) (ctr : ℚ) : ℚ :=
  if strategy.bidType = "CPC" then strategy.price * ctr
  else if strategy.bidType = "CPM" then strategy.price / 1000
  else 0

/-- Go `strings.Contains(hay, needle)` on the character lists. -/
def goStringContains (hay needle : String) : Bool :=
  decide (List.IsInfix needle.toList hay.toList)

/-- The in-loop pre-filter of `ProcessBid`: only enabled strategies
(`Status == 1`) whose billing type occurs in the slot's accepted billing
types are evaluated. -/
def eligible (slot : AdSlot) (s : BidStrategy) : Bool :=
  s.status == 1 && goStringContains slot.bidType s.bidType

/-- The body of one per-strategy evaluation task of `ProcessBid`: frequency
check (an error or a negative answer silently drops the candidate), constant
CTR prediction with its positivity guard, final price computation with its
positivity and slot-range guards, then the budget check (an error or a
negative answer again drops the candidate).  Returns the produced candidate,
if any, together with the collaborator calls the task made. -/
def evalStrategy (env : Env) (userID : String) (slot : AdSlot) (s : BidStrategy) :
    Option BidCandidate × List Effect :=
  let freqEff := [Effect.checkImpression userID s.id]
  if env.freqCheck userID s.id ≠ some true then (none, freqEff)
  else
    let ctr := predictCTR s userID
    if ctr ≤ 0 then (none, freqEff)
    else
      let bidPrice := calculateFinalBidPrice s ctr
      if bidPrice ≤ 0 then (none, freqEff)
      else if bidPrice < slot.minPrice ∨ slot.maxPrice < bidPrice then (none, freqEff)
      else
        let budEff := freqEff ++ [Effect.checkAndDeduct s.id bidPrice]
        if env.budgetCheck s.id bidPrice ≠ some true then (none, budEff)
        else (some ⟨s, bidPrice, ctr⟩, budEff)

/-- The multiset of candidates the fan-out places in the result channel,
listed in strategy order (the channel order is an arbitrary permutation of
this list, which the ranking theorems quantify over). -/
def collectCandidates (env : Env) (userID : String) (slot : AdSlot)
    (strategies : List BidStrategy) : List BidCandidate :=
  (strategies.filter (eligible slot)).filterMap (fun s => (evalStrategy env userID slot s).1)

/-- All collaborator calls the evaluation tasks make, in strategy order. -/
def evalEffects (env : Env) (userID : String) (slot : AdSlot)
    (strategies : List BidStrategy) : List Effect :=
  (strategies.filter (eligible slot)).flatMap (fun s => (evalStrategy env userID slot s).2)

/-- The comparator of the `sort.Slice` call in `ProcessBid`: candidates are
ordered by descending bid price. -/
def byPriceDesc (a b : BidCandidate) : Prop := b.bidPrice ≤ a.bidPrice

instance : DecidableRel byPriceDesc := fun _ _ => inferInstanceAs (Decidable (_ ≤ _))

instance : IsTotal BidCandidate byPriceDesc :=
  ⟨fun a b => le_total b.bidPrice a.bidPrice⟩

instance : IsTrans BidCandidate byPriceDesc :=
  ⟨fun _ _ _ hab hbc => le_trans hbc hab⟩

/-- The ranking step of `ProcessBid` on the collected candidates (a sort by
descending bid price; insertion sort realises one admissible output of
`sort.Slice`). -/
def rankCandidates (l : List BidCandidate) : List BidCandidate :=
  l.insertionSort byPriceDesc

/-- `Engine.ProcessBid` (strategy-based engine): the empty-request guard,
the repository fetch (its error propagates), the per-strategy fan-out, the
ranking of the collected candidates, the empty-result guard, and the
response for the top-ranked winner, whose impression is recorded
asynchronously.  The second component is the trace of collaborator calls. -/
def processBid (env : Env) (req : BidRequest) : Except BidError BidResponse × List Effect :=
  if req.userID = "" then (Except.error BidError.invalidRequest, [])
  else
    match req.adSlots with
    | [] => (Except.error BidError.invalidRequest, [])
    | slot :: _ =>
      match env.listStrategies with
      | Except.error e => (Except.error (BidError.repoFailure e), [Effect.listStrategies])
      | Except.ok strategies =>
        let effs := Effect.listStrategies :: evalEffects env req.userID slot strategies
        match rankCandidates (collectCandidates env req.userID slot strategies) with
        | [] => (Except.error BidError.noAvailableAds, effs)
        | winner :: _ =>
          (Except.ok ⟨winner.strategy.id, winner.bidPrice, winner.strategy.bidType⟩,
            effs ++ [Effect.recordImpression req.userID winner.strategy.id])

/-- The effective value (eCPM) of a candidate: `price × predicted_ctr`. -/
def effVal (c : BidCandidate) : ℚ := c.bidPrice * c.ctr

/-! ## Concurrent deduction across manager instances

Several `Manager` instances (one per process) share one remote budget
counter.  Within one instance the per-`Manager` mutex serialises its
`CheckAndDeduct` calls, the in-memory `Spent` snapshot is read and written
only by that instance — it is refreshed exclusively from the return values
of the instance's own `IncrBy` calls — and the remote `IncrBy` itself is
atomic.  Every real-time interleaving of calls across instances is
therefore equivalent to a serialisation of whole calls in the order their
increments land.  All money values are held in minor currency units (the
claim's amount `a` enters as `int64(a*100)`); the budget is assumed
existing, active and in-window, so only the cap check is in play. -/

/-- Lookup of an instance's entry in an association list keyed by instance
number. -/
def lookupNat (l : List (ℕ × ℤ)) (k : ℕ) : Option ℤ :=
  (l.find? (fun p => p.1 == k)).map Prod.snd

/-- Update (or insert) an instance's entry. -/
def setNat (l : List (ℕ × ℤ)) (k : ℕ) (v : ℤ) : List (ℕ × ℤ) :=
  match l with
  | [] => [(k, v)]
  | (k', v') :: rest => if k' == k then (k, v) :: rest else (k', v') :: setNat rest k v

/-- The state of several manager instances sharing one budget: the remote
counter, each instance's in-memory `Spent` snapshot (an absent entry is the
fresh budget's initial spend 0), and the landed deductions as
(instance, amount) pairs. -/
structure MultiState where
  counter : ℤ
  snapshot : List (ℕ × ℤ)
  landed : List (ℕ × ℤ)
  deriving Repr, DecidableEq

/-- Total minor-unit amount of a list of landed deductions. -/
def landedSum (l : List (ℕ × ℤ)) : ℤ := (l.map Prod.snd).sum

/-- The minor-unit total one instance has successfully deducted. -/
def instanceSum (l : List (ℕ × ℤ)) (k : ℕ) : ℤ :=
  landedSum (l.filter (fun c => c.1 == k))

/-- One complete `CheckAndDeduct` call on manager instance `call.1` for the
minor-unit amount `call.2`, as one atomic step of the serialisation.  The
cap check `Spent + amount > Amount` compares the calling instance's
in-memory snapshot — not the live shared counter, which may already be far
ahead — and on success the atomic increment lands on the shared counter and
the snapshot is refreshed from the increment's return value. -/
def deductCall (cap : ℤ) (st : MultiState) (call : ℕ × ℤ) : MultiState :=
  let snap := (lookupNat st.snapshot call.1).getD 0
  if cap < snap + call.2 then st
  else
    { counter := st.counter + call.2,
      snapshot := setNat st.snapshot call.1 (st.counter + call.2),
      landed := call :: st.landed }

/-- Run a serialisation of `CheckAndDeduct` calls from an initial counter
value `c0`, all instances starting with fresh snapshots. -/
def runCalls (cap : ℤ) (c0 : ℤ) (calls : List (ℕ × ℤ)) : MultiState :=
  calls.foldl (deductCall cap) ⟨c0, [], []⟩

/-- The inductive invariant of a multi-instance serialisation: the shared
counter carries exactly the landed deductions, landed amounts are
non-negative, every instance's landed total is covered by its own snapshot,
and no single instance has deducted more than the cap. -/
def MultiInv (cap c0 : ℤ) (st : MultiState) : Prop :=
  st.counter = c0 + landedSum st.landed ∧
  (∀ c ∈ st.landed, 0 ≤ c.2) ∧
  (∀ k, instanceSum st.landed k ≤ (lookupNat st.snapshot k).getD 0) ∧
  (∀ k, instanceSum st.landed k ≤ cap)

/-! ## Concrete instances used in the end-to-end statements -/

/-- An enabled CPM strategy priced at 5000 minor units. -/
def cpmStrategy : BidStrategy :=
  { id := "s1", name := "cpm strategy", bidType := "CPM", price := 5000,
    status := 1, dailyBudget := 100000, isPriceLocked := false }

/-- A CPM ad slot accepting prices in [1.0, 10.0]. -/
def cpmSlot : AdSlot :=
  { slotID := "slot1", width := 300, height := 250, minPrice := 1, maxPrice := 10,
    position := "top", adType := "banner", bidType := "CPM" }

/-- Collaborators for the single-candidate CPM run: one strategy, frequency
allowed, budget sufficient. -/
def cpmEnv : Env :=
  { listStrategies := Except.ok [cpmStrategy],
    freqCheck := fun _ _ => some true,
    budgetCheck := fun _ _ => some true }

/-- A well-formed request for `cpmSlot`. -/
def cpmReq : BidRequest :=
  { requestID := "r1", userID := "u1", deviceID := "d1", ip := "127.0.0.1",
    adSlots := [cpmSlot] }

/-- An enabled CPM strategy bidding 3.0 (price 3000 minor units). -/
def strat3 : BidStrategy := { cpmStrategy with id := "s3", price := 3000 }

/-- An enabled CPM strategy bidding 7.0 (price 7000 minor units). -/
def strat7 : BidStrategy := { cpmStrategy with id := "s7", price := 7000 }

/-- Two enabled CPM strategies with distinct effective values (bid prices
3.0 and 7.0, effective values 0.03 and 0.07). -/
def rankEnv : Env :=
  { listStrategies := Except.ok [strat3, strat7],
    freqCheck := fun _ _ => some true,
    budgetCheck := fun _ _ => some true }

/-- An enabled CPM strategy bidding 5.0, twin of `cpmStrategy` under
another id. -/
def stratT1 : BidStrategy := { cpmStrategy with id := "t1" }

/-- A second enabled CPM strategy bidding the same 5.0. -/
def stratT2 : BidStrategy := { cpmStrategy with id := "t2" }

/-- Two strategies with equal prices — hence tied bid prices and tied
effective values — arriving in the order `stratT1`, `stratT2`. -/
def tieEnv : Env :=
  { listStrategies := Except.ok [stratT1, stratT2],
    freqCheck := fun _ _ => some true,
    budgetCheck := fun _ _ => some true }

/-- The candidate `stratT1` produces (bid price 5.0, CTR 0.01). -/
def tieA : BidCandidate := ⟨stratT1, 5, 1 / 100⟩

/-- The candidate `stratT2` produces (bid price 5.0, CTR 0.01). -/
def tieB : BidCandidate := ⟨stratT2, 5, 1 / 100⟩

/-- Like `rankEnv`, but the frequency check vetoes strategy `s3`. -/
def dropEnv : Env :=
  { rankEnv with freqCheck := fun _ adID => if adID == "s3" then some false else some true }

/-- Collaborators whose repository fetch fails. -/
def errEnv : Env :=
  { rankEnv with listStrategies := Except.error "db down" }

/-- Like `rankEnv`, but every budget check reports insufficient budget. -/
def lowBudgetEnv : Env :=
  { rankEnv with budgetCheck := fun _ _ => some false }

/-- An enabled CPC strategy priced at 2.0 major units. -/
def cpcStrategy : BidStrategy :=
  { cpmStrategy with id := "s2", name := "cpc strategy", bidType := "CPC", price := 2 }

/-- A CPM slot whose floor price 6.0 lies above the 5.0 bid that
`cpmStrategy` produces. -/
def tightSlot : AdSlot :=
  { cpmSlot with minPrice := 6 }

/-- An active budget with cap 10.0 and spent 8.0, valid on [0, 100]. -/
def capBudget : Budget :=
  { id := "b1", btype := "daily", amount := 10, spent := 8,
    startTime := 0, endTime := 100, updateTime := 0,
    status := "active", description := "" }

/-- Manager state holding `capBudget` and its remote counter at 800 minor
units. -/
def capState : MgrState :=
  { budgets := [("b1", capBudget)], counter := [(getBudgetKey "b1", 800)] }

/-- An active budget with nothing spent, valid on [0, 100]. -/
def freshBudget : Budget :=
  { capBudget with spent := 0 }

/-- Manager state holding `freshBudget` with its remote counter absent. -/
def freshState : MgrState :=
  { budgets := [("b1", freshBudget)], counter := [] }

/-- Frequency store with an override configuring 2 impressions per day for
ad `a1` and no counters written yet. -/
def freqScene : FreqState :=
  { counters := [],
    configs := [(freqConfigKey "a1", [("impression_limit", "2"), ("click_limit", "1"),
                                      ("time_window", "24h0m0s"), ("qps", "100.000000")])] }

/-- A price-locked strategy row as stored in `bid_strategies`. -/
def lockedRow : StrategyRow :=
  { name := "locked", bidType := "CPM", price := 5000, dailyBudget := 200,
    status := 1, isPriceLocked := 1 }

/-- An unlocked strategy row as stored in `bid_strategies`. -/
def openRow : StrategyRow :=
  { lockedRow with name := "open", isPriceLocked := 0 }

/-- A strategies table with one locked and one unlocked row. -/
def strategyTable : List (String × StrategyRow) :=
  [("1", lockedRow), ("2", openRow)]

/-- An update request that tries to change every mutable field, including
the price. -/
def priceUpdate (id : String) : StrategyUpdate :=
  { id := id, name := "renamed", price := 9000, dailyBudget := 300, status := 0 }

/-- Two 0.60-unit deductions on two different manager instances against a
1.00 cap: each instance's fresh snapshot passes its check. -/
def raceCalls : List (ℕ × ℤ) := [(0, 60), (1, 60)]

/-! ## Association-list lemmas -/

theorem lookupAssoc_setAssoc {α : Type} (l : List (String × α)) (k : String) (v : α) :
    lookupAssoc (setAssoc l k v) k = some v := by
  induction l with
  | nil => simp [setAssoc, lookupAssoc, List.find?]
  | cons p rest ih =>
    obtain ⟨k', v'⟩ := p
    by_cases h : k' == k
    · simp [setAssoc, lookupAssoc, List.find?, h]
    · simpa [setAssoc, lookupAssoc, List.find?, h] using ih

/-! ## Claim theorems: input validation (C1) -/

/-- Claim C1: a `BidRequest` with an empty user id or an empty ad-slot list
makes `ProcessBid` fail with the invalid-request error before any
collaborator is called: no repository fetch, no frequency check or record,
and no budget deduction happens (the effect trace is empty). -/
theorem processBid_invalid_request_no_effects (env : Env) (req : BidRequest)
    (h : req.userID = "" ∨ req.adSlots = []) :
    processBid env req = (Except.error BidError.invalidRequest, []) := by
  by_cases hu : req.userID = ""
  · simp [processBid, hu]
  · rcases h with h | h
    · exact absurd h hu
    · simp [processBid, hu, h]

/-- A request with an empty user id (and a request with no slots) is
rejected with no side effects. -/
theorem processBid_invalid_request_no_effects_witness :
    processBid cpmEnv { cpmReq with userID := "" } = (Except.error BidError.invalidRequest, []) ∧
    processBid cpmEnv { cpmReq with adSlots := [] } = (Except.error BidError.invalidRequest, []) :=
  ⟨processBid_invalid_request_no_effects cpmEnv _ (Or.inl rfl),
   processBid_invalid_request_no_effects cpmEnv _ (Or.inr rfl)⟩

/-! ## Claim theorems: budget manager (C4, C5, C10) -/

/-- Claim C4 (counterexample to the claim as stated): on an existing,
active, in-window budget whose cap would be exceeded, `CheckAndDeduct`
does return `ok = false` without touching any state, but the accompanying
Go error is `ErrBudgetExceeded`, not nil. -/
theorem checkAndDeduct_exceeded_err_not_nil :
    (checkAndDeduct capState 50 "b1" 5).ok = false ∧
    (checkAndDeduct capState 50 "b1" 5).err = some BudgetErr.exceeded ∧
    ¬ (checkAndDeduct capState 50 "b1" 5).err = none ∧
    (checkAndDeduct capState 50 "b1" 5).state = capState := by
  have h : checkAndDeduct capState 50 "b1" 5 = ⟨false, some BudgetErr.exceeded, capState⟩ := by
    norm_num [checkAndDeduct, capState, capBudget, lookupAssoc, List.find?]
  rw [h]
  exact ⟨rfl, rfl, by decide, rfl⟩

/-- Claim C4 (amended): for every existing, active, in-window budget and
every amount with `spent + amount > cap`, `CheckAndDeduct` returns
`ok = false` together with the `ErrBudgetExceeded` error (a non-nil Go
error), and neither the remote counter nor the in-memory budget map is
changed. -/
theorem checkAndDeduct_exceeded_no_side_effects (st : MgrState) (now : ℤ) (id : String)
    (amount : ℚ) (b : Budget) (hb : lookupAssoc st.budgets id = some b)
    (hact : b.status = "active")
    (hstart : b.startTime ≤ now) (hend : now ≤ b.endTime)
    (hcap : b.amount < b.spent + amount) :
    checkAndDeduct st now id amount = ⟨false, some BudgetErr.exceeded, st⟩ := by
  unfold checkAndDeduct
  rw [hb]
  simp [hact, not_lt.mpr hstart, not_lt.mpr hend, hcap]

/-- The exceeded branch at a concrete state: cap 10, spent 8, amount 3. -/
theorem checkAndDeduct_exceeded_no_side_effects_witness :
    checkAndDeduct capState 30 "b1" 3 = ⟨false, some BudgetErr.exceeded, capState⟩ :=
  checkAndDeduct_exceeded_no_side_effects capState 30 "b1" 3 capBudget rfl rfl
    (by decide) (by decide) (by norm_num [capBudget])

/-- Claim C5 (counterexample to the half-open-window part): the validity
check uses strict `time.Before`/`time.After`, so a deduction attempted at
exactly `end_time` is not rejected as expired — it goes through and
increments the remote counter. -/
theorem checkAndDeduct_at_endtime_allowed :
    (checkAndDeduct freshState 100 "b1" 2).ok = true ∧
    ¬ (checkAndDeduct freshState 100 "b1" 2).err = some BudgetErr.expired ∧
    (checkAndDeduct freshState 100 "b1" 2).err = none ∧
    (checkAndDeduct freshState 100 "b1" 2).state.counter = [(getBudgetKey "b1", 200)] := by
  have h : checkAndDeduct freshState 100 "b1" 2 =
      ⟨true, none, { budgets := [("b1", { freshBudget with spent := 2, updateTime := 100 })],
                     counter := [(getBudgetKey "b1", 200)] }⟩ := by
    norm_num [checkAndDeduct, freshState, freshBudget, capBudget, lookupAssoc, List.find?,
      goInt64, getBudgetKey, setAssoc]
  rw [h]
  exact ⟨rfl, by decide, rfl, rfl⟩

/-- Claim C5 (amended): `CheckAndDeduct` fails with `BudgetNotFound` when
the id is absent and with `BudgetInactive` when the status is not active;
for an active budget it reports `BudgetExpired` exactly when `now` lies
outside the closed interval `[start_time, end_time]` — a deduction at
exactly `end_time` is still accepted — and no failing call changes any
state. -/
theorem checkAndDeduct_failure_classification (st : MgrState) (now : ℤ) (id : String)
    (amount : ℚ) :
    (lookupAssoc st.budgets id = none →
      checkAndDeduct st now id amount = ⟨false, some BudgetErr.notFound, st⟩) ∧
    (∀ b, lookupAssoc st.budgets id = some b → ¬ b.status = "active" →
      checkAndDeduct st now id amount = ⟨false, some BudgetErr.inactive, st⟩) ∧
    (∀ b, lookupAssoc st.budgets id = some b → b.status = "active" →
      ((checkAndDeduct st now id amount).err = some BudgetErr.expired ↔
        (now < b.startTime ∨ b.endTime < now))) ∧
    ((checkAndDeduct st now id amount).ok = false →
      (checkAndDeduct st now id amount).state = st) := by
  refine ⟨?_, ?_, ?_, ?_⟩
  · intro h
    unfold checkAndDeduct
    rw [h]
  · intro b hb hact
    unfold checkAndDeduct
    rw [hb]
    simp [hact]
  · intro b hb hact
    unfold checkAndDeduct
    rw [hb]
    by_cases hw : now < b.startTime ∨ b.endTime < now
    · simp [hact, hw]
    · by_cases hc : b.amount < b.spent + amount
      · simp [hact, hw, hc]
      · simp [hact, hw, hc]
  · unfold checkAndDeduct
    cases hlk : lookupAssoc st.budgets id with
    | none => intro _; rfl
    | some b =>
      intro hok
      by_cases h1 : b.status ≠ "active"
      · simp [h1]
      · by_cases h2 : now < b.startTime ∨ b.endTime < now
        · simp [h1, h2]
        · by_cases h3 : b.amount < b.spent + amount
          · simp [h1, h2, h3]
          · simp [h1, h2, h3] at hok

/-- The three failure classes at concrete states: an absent id, an
inactive budget, and a just-expired budget (`now` one past `end_time`);
the expiry classification also certifies that `now = end_time` is not
expired. -/
theorem checkAndDeduct_failure_classification_witness :
    checkAndDeduct freshState 0 "missing" 1 = ⟨false, some BudgetErr.notFound, freshState⟩ ∧
    checkAndDeduct
      { freshState with budgets := [("b1", { freshBudget with status := "paused" })] }
      0 "b1" 1 =
      ⟨false, some BudgetErr.inactive,
        { freshState with budgets := [("b1", { freshBudget with status := "paused" })] }⟩ ∧
    (checkAndDeduct freshState 101 "b1" 1).err = some BudgetErr.expired ∧
    ¬ (checkAndDeduct freshState 100 "b1" 1).err = some BudgetErr.expired := by
  refine ⟨?_, ?_, ?_, ?_⟩
  · exact (checkAndDeduct_failure_classification freshState 0 "missing" 1).1 rfl
  · exact (checkAndDeduct_failure_classification _ 0 "b1" 1).2.1 _ rfl (by decide)
  · exact ((checkAndDeduct_failure_classification freshState 101 "b1" 1).2.2.1 freshBudget
      rfl rfl).mpr (by decide)
  · intro h
    have := ((checkAndDeduct_failure_classification freshState 100 "b1" 1).2.2.1 freshBudget
      rfl rfl).mp h
    revert this
    decide

/-- Claim C2: the final bid price is `base_price × predicted_ctr` for CPC
billing and `base_price / 1000` for CPM billing; a computed price strictly
below the slot floor or strictly above the slot ceiling makes the candidate
produce no result; and the end-to-end CPM run (one enabled CPM strategy
priced 5000 minor units against a CPM slot accepting [1.0, 10.0]) answers
with that strategy's ad id and a bid price of 5.0. -/
theorem finalBidPrice_and_cpm_run :
    (∀ s ctr, s.bidType = "CPC" → calculateFinalBidPrice s ctr = s.price * ctr) ∧
    (∀ s ctr, s.bidType = "CPM" → calculateFinalBidPrice s ctr = s.price / 1000) ∧
    (∀ env userID slot s,
      (calculateFinalBidPrice s (predictCTR s userID) < slot.minPrice ∨
        slot.maxPrice < calculateFinalBidPrice s (predictCTR s userID)) →
      (evalStrategy env userID slot s).1 = none) ∧
    (processBid cpmEnv cpmReq).1 = Except.ok ⟨cpmStrategy.id, 5, "CPM"⟩ := by
  refine ⟨?_, ?_, ?_, ?_⟩
  · intro s ctr h
    simp [calculateFinalBidPrice, h]
  · intro s ctr h
    simp +decide [calculateFinalBidPrice, h]
  · intro env userID slot s h
    have hctr : ¬ predictCTR s userID ≤ 0 := by norm_num [predictCTR]
    by_cases hf : env.freqCheck userID s.id ≠ some true
    · simp [evalStrategy, hf]
    · have hf' : env.freqCheck userID s.id = some true := not_not.mp hf
      by_cases hp : calculateFinalBidPrice s (predictCTR s userID) ≤ 0
      · simp [evalStrategy, hf', hctr, hp]
      · simp [evalStrategy, hf', hctr, hp, h]
  · simp +decide only [processBid, cpmEnv, cpmReq, cpmSlot, cpmStrategy, evalEffects,
      evalStrategy, collectCandidates, rankCandidates, eligible, goStringContains, predictCTR,
      calculateFinalBidPrice, byPriceDesc, List.insertionSort, List.orderedInsert,
      List.filterMap, List.filter, List.flatMap]
    norm_num

/-- The price formulas at concrete strategies, a below-floor candidate
producing no result, and the concrete CPM end-to-end response. -/
theorem finalBidPrice_and_cpm_run_witness :
    calculateFinalBidPrice cpcStrategy 1 = cpcStrategy.price * 1 ∧
    calculateFinalBidPrice cpmStrategy (1 / 100) = cpmStrategy.price / 1000 ∧
    (evalStrategy cpmEnv "u1" tightSlot cpmStrategy).1 = none ∧
    (processBid cpmEnv cpmReq).1 = Except.ok ⟨cpmStrategy.id, 5, "CPM"⟩ :=
  ⟨finalBidPrice_and_cpm_run.1 cpcStrategy 1 rfl,
   finalBidPrice_and_cpm_run.2.1 cpmStrategy (1 / 100) rfl,
   finalBidPrice_and_cpm_run.2.2.1 cpmEnv "u1" tightSlot cpmStrategy
     (Or.inl (by
       simp +decide only [calculateFinalBidPrice, cpmStrategy, tightSlot, cpmSlot, predictCTR]
       norm_num)),
   finalBidPrice_and_cpm_run.2.2.2⟩

/-- Claim C7: `CheckImpression` answers `allowed = (count < limit)` where
the count is the stored counter for the `(user, target, day)` key, an
absent key reading as 0, and the limit falls back to the system default of
10 when no override hash is stored; under an override of 2 impressions,
two recorded impressions make the third check return `allowed = false`,
and expiry of the counter key makes it return `allowed = true` again. -/
theorem checkImpression_limit_gate :
    (∀ st userID adID day,
      checkImpression st userID adID day = true ↔
        (lookupAssoc st.counters (freqImpKey userID adID day)).getD 0 <
          (getConfig st adID).impressionLimit) ∧
    (∀ st adID, lookupAssoc st.configs (freqConfigKey adID) = none →
      getConfig st adID = defaultFreqConfig) ∧
    defaultFreqConfig.impressionLimit = 10 ∧
    checkImpression freqScene "u1" "a1" "d0" = true ∧
    checkImpression
      (recordImpression (recordImpression freqScene "u1" "a1" "d0") "u1" "a1" "d0")
      "u1" "a1" "d0" = false ∧
    checkImpression
      (expireKey
        (recordImpression (recordImpression freqScene "u1" "a1" "d0") "u1" "a1" "d0")
        (freqImpKey "u1" "a1" "d0"))
      "u1" "a1" "d0" = true := by
  refine ⟨?_, ?_, rfl, by decide, by decide, by decide⟩
  · intro st userID adID day
    unfold checkImpression
    by_cases h : (getConfig st adID).impressionLimit ≤
        (lookupAssoc st.counters (freqImpKey userID adID day)).getD 0
    · simp [h, not_lt.mpr h]
    · simp [h, lt_of_not_le h]
  · intro st adID h
    unfold getConfig
    rw [h]

/-- The counting rule and the default fallback at concrete stores. -/
theorem checkImpression_limit_gate_witness :
    (checkImpression freqScene "u1" "a1" "d0" = true ↔
      (lookupAssoc freqScene.counters (freqImpKey "u1" "a1" "d0")).getD 0 <
        (getConfig freqScene "a1").impressionLimit) ∧
    getConfig freqScene "other" = defaultFreqConfig :=
  ⟨checkImpression_limit_gate.1 freqScene "u1" "a1" "d0",
   checkImpression_limit_gate.2.1 freqScene "other" rfl⟩

/-- Claim C8: `UpdateBidStrategy` on a price-locked row silently ignores a
price change while applying the requested name, daily budget and status;
on an unlocked row the same update also applies the new price. -/
theorem updateBidStrategy_price_lock (table : List (String × StrategyRow))
    (s : StrategyUpdate) (row : StrategyRow)
    (hrow : lookupAssoc table s.id = some row) :
    (row.isPriceLocked = 1 →
      ∃ t, updateBidStrategy table s = Except.ok t ∧
        lookupAssoc t s.id = some
          { row with name := s.name, dailyBudget := s.dailyBudget, status := s.status }) ∧
    (¬ row.isPriceLocked = 1 →
      ∃ t, updateBidStrategy table s = Except.ok t ∧
        lookupAssoc t s.id = some
          { row with name := s.name, price := s.price,
                     dailyBudget := s.dailyBudget, status := s.status }) := by
  constructor
  · intro hlock
    have hrun : updateBidStrategy table s = Except.ok (setAssoc table s.id
        { row with name := s.name, dailyBudget := s.dailyBudget, status := s.status }) := by
      unfold updateBidStrategy
      rw [hrow]
      simp [hlock]
    exact ⟨_, hrun, lookupAssoc_setAssoc _ _ _⟩
  · intro hlock
    have hrun : updateBidStrategy table s = Except.ok (setAssoc table s.id
        { row with name := s.name, price := s.price,
                   dailyBudget := s.dailyBudget, status := s.status }) := by
      unfold updateBidStrategy
      rw [hrow]
      simp [hlock]
    exact ⟨_, hrun, lookupAssoc_setAssoc _ _ _⟩

/-- Updating a locked row keeps its price 5000 (while renaming it), and
the same update on an unlocked row moves the price to 9000. -/
theorem updateBidStrategy_price_lock_witness :
    (∃ t, updateBidStrategy strategyTable (priceUpdate "1") = Except.ok t ∧
      lookupAssoc t "1" = some
        { lockedRow with name := "renamed", dailyBudget := 300, status := 0 }) ∧
    (∃ t, updateBidStrategy strategyTable (priceUpdate "2") = Except.ok t ∧
      lookupAssoc t "2" = some
        { openRow with name := "renamed", price := 9000, dailyBudget := 300, status := 0 }) :=
  ⟨(updateBidStrategy_price_lock strategyTable (priceUpdate "1") lockedRow rfl).1 rfl,
   (updateBidStrategy_price_lock strategyTable (priceUpdate "2") openRow rfl).2 (by decide)⟩

/-- Claim C10: `CheckAndDeduct` never validates that the amount is
positive: any non-positive amount against an existing, active, in-window
budget (whose spend respects the cap invariant) succeeds with a nil error
and applies the increment `int64(amount*100)` to the remote counter, so an
amount of at least one negative minor unit strictly decreases the recorded
spend. -/
theorem checkAndDeduct_accepts_nonpositive (st : MgrState) (now : ℤ) (id : String)
    (amount : ℚ) (b : Budget) (hb : lookupAssoc st.budgets id = some b)
    (hact : b.status = "active")
    (hstart : b.startTime ≤ now) (hend : now ≤ b.endTime)
    (hinv : b.spent ≤ b.amount) (hneg : amount ≤ 0) :
    (checkAndDeduct st now id amount).ok = true ∧
    (checkAndDeduct st now id amount).err = none ∧
    lookupAssoc (checkAndDeduct st now id amount).state.counter (getBudgetKey id) =
      some ((lookupAssoc st.counter (getBudgetKey id)).getD 0 + goInt64 (amount * 100)) ∧
    (amount ≤ -(1 / 100) →
      (lookupAssoc st.counter (getBudgetKey id)).getD 0 + goInt64 (amount * 100) <
        (lookupAssoc st.counter (getBudgetKey id)).getD 0) := by
  have hcap : ¬ b.amount < b.spent + amount := by
    push_neg
    calc b.spent + amount ≤ b.spent + 0 := by linarith
    _ = b.spent := by ring
    _ ≤ b.amount := hinv
  have hrun : checkAndDeduct st now id amount =
      ⟨true, none,
        { budgets := setAssoc st.budgets id
            { b with spent := (((lookupAssoc st.counter (getBudgetKey id)).getD 0 +
                goInt64 (amount * 100) : ℤ) : ℚ) / 100, updateTime := now },
          counter := setAssoc st.counter (getBudgetKey id)
            ((lookupAssoc st.counter (getBudgetKey id)).getD 0 + goInt64 (amount * 100)) }⟩ := by
    unfold checkAndDeduct
    rw [hb]
    simp [hact, not_lt.mpr hstart, not_lt.mpr hend, hcap]
  refine ⟨by rw [hrun], by rw [hrun], by rw [hrun]; exact lookupAssoc_setAssoc _ _ _, ?_⟩
  intro hle
  have h1 : amount * 100 ≤ -1 := by linarith
  have h2 : ¬ (0 : ℚ) ≤ amount * 100 := by linarith
  have h3 : goInt64 (amount * 100) ≤ -1 := by
    unfold goInt64
    rw [if_neg h2]
    exact Int.ceil_le.mpr (by exact_mod_cast h1)
  linarith

/-- A deduction of −1.0 against a fresh active budget succeeds and drives
the remote counter down by 100 minor units. -/
theorem checkAndDeduct_accepts_nonpositive_witness :
    (checkAndDeduct freshState 50 "b1" (-1)).ok = true ∧
    (checkAndDeduct freshState 50 "b1" (-1)).err = none ∧
    lookupAssoc (checkAndDeduct freshState 50 "b1" (-1)).state.counter (getBudgetKey "b1") =
      some ((lookupAssoc freshState.counter (getBudgetKey "b1")).getD 0 + goInt64 (-1 * 100)) ∧
    ((-1 : ℚ) ≤ -(1 / 100) →
      (lookupAssoc freshState.counter (getBudgetKey "b1")).getD 0 + goInt64 (-1 * 100) <
        (lookupAssoc freshState.counter (getBudgetKey "b1")).getD 0) :=
  checkAndDeduct_accepts_nonpositive freshState 50 "b1" (-1) freshBudget rfl rfl
    (by decide) (by decide) (by norm_num [freshBudget, capBudget]) (by norm_num)

/-! ## Claim theorems: per-candidate failure isolation (C6) -/

theorem collectCandidates_env_repo (env : Env) (x : Except String (List BidStrategy))
    (userID : String) (slot : AdSlot) (strategies : List BidStrategy) :
    collectCandidates { env with listStrategies := x } userID slot strategies =
      collectCandidates env userID slot strategies := rfl

/-- Claim C6: inside `ProcessBid`, an error or a negative answer from the
frequency check or from the budget check makes only that evaluation task
produce no result — the request-level outcome is the outcome for the
remaining strategies — and a `ProcessBid` error is always the
invalid-request error, a propagated repository-fetch failure, or
no-available-ads. -/
theorem processBid_error_isolation :
    (∀ env userID slot s, env.freqCheck userID s.id ≠ some true →
      (evalStrategy env userID slot s).1 = none) ∧
    (∀ env userID slot s,
      env.budgetCheck s.id (calculateFinalBidPrice s (predictCTR s userID)) ≠ some true →
      (evalStrategy env userID slot s).1 = none) ∧
    (∀ env req l₁ s l₂, env.listStrategies = Except.ok (l₁ ++ s :: l₂) →
      (∀ slot, (evalStrategy env req.userID slot s).1 = none) →
      (processBid env req).1 =
        (processBid { env with listStrategies := Except.ok (l₁ ++ l₂) } req).1) ∧
    (∀ env req e, (processBid env req).1 = Except.error e →
      (e = BidError.invalidRequest ∧ (req.userID = "" ∨ req.adSlots = [])) ∨
      (∃ m, e = BidError.repoFailure m ∧ env.listStrategies = Except.error m) ∨
      e = BidError.noAvailableAds) := by
  refine ⟨?_, ?_, ?_, ?_⟩
  · intro env userID slot s hf
    simp [evalStrategy, hf]
  · intro env userID slot s hb
    have hctr : ¬ predictCTR s userID ≤ 0 := by norm_num [predictCTR]
    by_cases hf : env.freqCheck userID s.id ≠ some true
    · simp [evalStrategy, hf]
    · have hf' : env.freqCheck userID s.id = some true := not_not.mp hf
      by_cases hp : calculateFinalBidPrice s (predictCTR s userID) ≤ 0
      · simp [evalStrategy, hf', hctr, hp]
      · by_cases hr : calculateFinalBidPrice s (predictCTR s userID) < slot.minPrice ∨
            slot.maxPrice < calculateFinalBidPrice s (predictCTR s userID)
        · simp [evalStrategy, hf', hctr, hp, hr]
        · simp [evalStrategy, hf', hctr, hp, hr, hb]
  · intro env req l₁ s l₂ hrepo hnone
    unfold processBid
    by_cases hu : req.userID = ""
    · simp [hu]
    · simp only [if_neg hu]
      cases hsl : req.adSlots with
      | nil => rfl
      | cons slot rest =>
        have hc : collectCandidates env req.userID slot (l₁ ++ s :: l₂) =
            collectCandidates env req.userID slot (l₁ ++ l₂) := by
          by_cases he : eligible slot s
          · simp [collectCandidates, List.filter_append, List.filter_cons, he,
              List.filterMap_append, List.filterMap_cons, hnone slot]
          · simp [collectCandidates, List.filter_append, List.filter_cons, he,
              List.filterMap_append]
        rw [hrepo]
        simp only [collectCandidates_env_repo, hc]
        cases rankCandidates (collectCandidates env req.userID slot (l₁ ++ l₂)) with
        | nil => rfl
        | cons w ws => rfl
  · intro env req e herr
    unfold processBid at herr
    by_cases hu : req.userID = ""
    · rw [if_pos hu] at herr
      simp only [] at herr
      exact Or.inl ⟨(Except.error.injEq _ _).mp herr.symm, Or.inl hu⟩
    · rw [if_neg hu] at herr
      cases hsl : req.adSlots with
      | nil =>
        rw [hsl] at herr
        simp only [] at herr
        exact Or.inl ⟨(Except.error.injEq _ _).mp herr.symm, Or.inr rfl⟩
      | cons slot rest =>
        rw [hsl] at herr
        cases hrepo : env.listStrategies with
        | error m =>
          rw [hrepo] at herr
          simp only [] at herr
          exact Or.inr (Or.inl ⟨m, (Except.error.injEq _ _).mp herr.symm, rfl⟩)
        | ok strategies =>
          rw [hrepo] at herr
          simp only [] at herr
          cases hrank : rankCandidates (collectCandidates env req.userID slot strategies) with
          | nil =>
            rw [hrank] at herr
            simp only [] at herr
            exact Or.inr (Or.inr ((Except.error.injEq _ _).mp herr.symm))
          | cons w ws =>
            rw [hrank] at herr
            simp at herr

/-- A frequency veto and a budget veto each drop only their candidate
(the `s3` strategy), and a repository failure surfaces as the repo-failure
error kind. -/
theorem processBid_error_isolation_witness :
    (evalStrategy dropEnv "u1" cpmSlot strat3).1 = none ∧
    (evalStrategy lowBudgetEnv "u1" cpmSlot strat3).1 = none ∧
    (processBid dropEnv cpmReq).1 =
      (processBid { dropEnv with listStrategies := Except.ok ([] ++ [strat7]) } cpmReq).1 ∧
    ((BidError.repoFailure "db down" = BidError.invalidRequest ∧
        (cpmReq.userID = "" ∨ cpmReq.adSlots = [])) ∨
      (∃ m, BidError.repoFailure "db down" = BidError.repoFailure m ∧
        errEnv.listStrategies = Except.error m) ∨
      BidError.repoFailure "db down" = BidError.noAvailableAds) :=
  ⟨processBid_error_isolation.1 dropEnv "u1" cpmSlot strat3 (by decide),
   processBid_error_isolation.2.1 lowBudgetEnv "u1" cpmSlot strat3 (by decide),
   processBid_error_isolation.2.2.1 dropEnv cpmReq [] strat3 [strat7] rfl
     (fun slot => processBid_error_isolation.1 dropEnv cpmReq.userID slot strat3 (by decide)),
   processBid_error_isolation.2.2.2 errEnv cpmReq _ rfl⟩

/-! ## Claim theorems: ranking determinism (C3) -/

theorem evalStrategy_some (env : Env) (userID : String) (slot : AdSlot) (s : BidStrategy)
    (c : BidCandidate) (h : (evalStrategy env userID slot s).1 = some c) :
    c = ⟨s, calculateFinalBidPrice s (predictCTR s userID), predictCTR s userID⟩ := by
  simp only [evalStrategy] at h
  split at h
  · simp at h
  · split at h
    · simp at h
    · split at h
      · simp at h
      · split at h
        · simp at h
        · split at h
          · simp at h
          · simp only [Option.some.injEq] at h
            exact h.symm

theorem collectCandidates_ctr (env : Env) (userID : String) (slot : AdSlot)
    (strategies : List BidStrategy) (c : BidCandidate)
    (hc : c ∈ collectCandidates env userID slot strategies) : c.ctr = 1 / 100 := by
  simp only [collectCandidates, List.mem_filterMap] at hc
  obtain ⟨s, _, hev⟩ := hc
  rw [evalStrategy_some env userID slot s c hev]
  rfl

theorem sorted_head_strict_max (env : Env) (userID : String) (slot : AdSlot)
    (strategies : List BidStrategy) (arrival out : List BidCandidate)
    (harr : arrival.Perm (collectCandidates env userID slot strategies))
    (hout : out.Perm arrival) (hsort : out.Sorted byPriceDesc)
    (hdist : (collectCandidates env userID slot strategies).Pairwise
      (fun a b => effVal a ≠ effVal b))
    (w : BidCandidate) (hw : out.head? = some w) :
    w ∈ collectCandidates env userID slot strategies ∧
      ∀ c ∈ collectCandidates env userID slot strategies, c ≠ w → effVal c < effVal w := by
  obtain ⟨rest, rfl⟩ : ∃ rest, out = w :: rest := by
    cases out with
    | nil => simp at hw
    | cons a t =>
      simp only [List.head?_cons, Option.some.injEq] at hw
      exact ⟨t, by rw [hw]⟩
  have hmemw : w ∈ collectCandidates env userID slot strategies :=
    harr.mem_iff.mp (hout.mem_iff.mp (List.mem_cons_self w rest))
  refine ⟨hmemw, ?_⟩
  intro c hc hne
  have hcout : c ∈ w :: rest := (hout.trans harr).mem_iff.mpr hc
  rcases List.mem_cons.mp hcout with hcw | hcrest
  · exact absurd hcw hne
  · have hle : c.bidPrice ≤ w.bidPrice := List.rel_of_sorted_cons hsort c hcrest
    have hcc : c.ctr = 1 / 100 := collectCandidates_ctr env userID slot strategies c hc
    have hwc : w.ctr = 1 / 100 := collectCandidates_ctr env userID slot strategies w hmemw
    have hsymm : Symmetric (fun a b : BidCandidate => effVal a ≠ effVal b) :=
      fun a b h heq => h heq.symm
    have hneq : effVal c ≠ effVal w := hdist.forall hsymm hc hmemw hne
    have hlev : effVal c ≤ effVal w := by
      unfold effVal
      rw [hcc, hwc]
      have h100 : (0:ℚ) ≤ 1 / 100 := by norm_num
      exact mul_le_mul_of_nonneg_right hle h100
    exact lt_of_le_of_ne hlev hneq

/-- Claim C3: the ranking step of `ProcessBid` (an admissible output of the
unstable `sort.Slice` call: some permutation of the collected candidates
that is sorted by descending bid price, and in particular the insertion
sort the model runs) always puts a candidate of maximal bid price first;
since every collected candidate carries the constant predicted CTR 1/100,
this is exactly descending effective value `price × ctr`, and when the
collected effective values are pairwise distinct the winner is the unique
highest effective-value candidate, independent of the arrival order of the
evaluation tasks and of the tie behaviour of the sort. -/
theorem processBid_ranking_determinism (env : Env) (userID : String) (slot : AdSlot)
    (strategies : List BidStrategy) (arrival out : List BidCandidate)
    (harr : arrival.Perm (collectCandidates env userID slot strategies))
    (hout : out.Perm arrival) (hsort : out.Sorted byPriceDesc)
    (hdist : (collectCandidates env userID slot strategies).Pairwise
      (fun a b => effVal a ≠ effVal b))
    (w : BidCandidate) (hw : out.head? = some w) :
    ((rankCandidates (collectCandidates env userID slot strategies)).Perm
        (collectCandidates env userID slot strategies) ∧
      (rankCandidates (collectCandidates env userID slot strategies)).Sorted byPriceDesc) ∧
    w ∈ collectCandidates env userID slot strategies ∧
    (∀ c ∈ collectCandidates env userID slot strategies, c ≠ w → effVal c < effVal w) ∧
    (∀ (arrival₂ out₂ : List BidCandidate) (w₂ : BidCandidate),
      arrival₂.Perm (collectCandidates env userID slot strategies) →
      out₂.Perm arrival₂ → out₂.Sorted byPriceDesc → out₂.head? = some w₂ → w₂ = w) := by
  obtain ⟨hm, hmax⟩ := sorted_head_strict_max env userID slot strategies arrival out
    harr hout hsort hdist w hw
  refine ⟨⟨List.perm_insertionSort byPriceDesc _, List.sorted_insertionSort byPriceDesc _⟩,
    hm, hmax, ?_⟩
  intro arrival₂ out₂ w₂ ha2 ho2 hs2 hw2
  obtain ⟨hm2, hmax2⟩ := sorted_head_strict_max env userID slot strategies arrival₂ out₂
    ha2 ho2 hs2 hdist w₂ hw2
  by_contra hne
  exact absurd (hmax2 w hm fun h => hne h.symm) (lt_asymm (hmax w₂ hm2 hne))

/-- The two-candidate run (bid prices 3.0 and 7.0): every admissible
ranking puts the 7.0 candidate first. -/
theorem processBid_ranking_determinism_witness :
    ((rankCandidates (collectCandidates rankEnv "u1" cpmSlot [strat3, strat7])).Perm
        (collectCandidates rankEnv "u1" cpmSlot [strat3, strat7]) ∧
      (rankCandidates (collectCandidates rankEnv "u1" cpmSlot [strat3, strat7])).Sorted
        byPriceDesc) ∧
    (⟨strat7, 7, 1 / 100⟩ : BidCandidate) ∈
      collectCandidates rankEnv "u1" cpmSlot [strat3, strat7] ∧
    (∀ c ∈ collectCandidates rankEnv "u1" cpmSlot [strat3, strat7],
      c ≠ ⟨strat7, 7, 1 / 100⟩ → effVal c < effVal ⟨strat7, 7, 1 / 100⟩) ∧
    (∀ (arrival₂ out₂ : List BidCandidate) (w₂ : BidCandidate),
      arrival₂.Perm (collectCandidates rankEnv "u1" cpmSlot [strat3, strat7]) →
      out₂.Perm arrival₂ → out₂.Sorted byPriceDesc → out₂.head? = some w₂ →
      w₂ = ⟨strat7, 7, 1 / 100⟩) := by
  have hcol : collectCandidates rankEnv "u1" cpmSlot [strat3, strat7] =
      [⟨strat3, 3, 1 / 100⟩, ⟨strat7, 7, 1 / 100⟩] := by
    simp +decide only [collectCandidates, rankEnv, cpmSlot, cpmStrategy, strat3, strat7,
      evalStrategy, eligible, goStringContains, predictCTR, calculateFinalBidPrice,
      List.filter, List.filterMap]
    norm_num
  have hdist : (collectCandidates rankEnv "u1" cpmSlot [strat3, strat7]).Pairwise
      (fun a b => effVal a ≠ effVal b) := by
    rw [hcol]
    refine List.Pairwise.cons ?_ (List.pairwise_singleton _ _)
    intro c hc
    rw [List.mem_singleton.mp hc]
    norm_num [effVal]
  have hw : (rankCandidates (collectCandidates rankEnv "u1" cpmSlot
      [strat3, strat7])).head? = some ⟨strat7, 7, 1 / 100⟩ := by
    rw [hcol]
    have hlt : ¬ byPriceDesc ⟨strat3, 3, 1 / 100⟩ ⟨strat7, 7, 1 / 100⟩ := by
      norm_num [byPriceDesc]
    simp only [rankCandidates, List.insertionSort, List.orderedInsert, if_neg hlt,
      List.head?_cons]
  exact processBid_ranking_determinism rankEnv "u1" cpmSlot [strat3, strat7] _ _
    (List.Perm.refl _) (List.perm_insertionSort _ _) (List.sorted_insertionSort _ _)
    hdist _ hw

/-- Claim C3 (counterexample to the stable tie-break clause): the strategies
`stratT1` and `stratT2` are collected as the tied candidates `tieA`, `tieB`
— equal bid prices, equal effective values — in arrival order
`[tieA, tieB]`.  The code ranks with `sort.Slice`, which guarantees only a
by-price-descending permutation and is not stable, and `[tieB, tieA]` is
exactly such a permutation of this arrival order; its winner is `tieB`,
not the first-arrived `tieA` that an arrival-order tie-break would
require.  Nothing in the code breaks ties by arrival order. -/
theorem rankCandidates_tie_break_not_stable :
    collectCandidates tieEnv "u1" cpmSlot [stratT1, stratT2] = [tieA, tieB] ∧
    effVal tieA = effVal tieB ∧
    tieB ≠ tieA ∧
    ([tieB, tieA] : List BidCandidate).Perm [tieA, tieB] ∧
    ([tieB, tieA] : List BidCandidate).Sorted byPriceDesc ∧
    ([tieB, tieA] : List BidCandidate).head? = some tieB := by
  refine ⟨?_, rfl, by decide, List.Perm.swap tieA tieB [], ?_, rfl⟩
  · simp +decide only [collectCandidates, tieEnv, cpmSlot, cpmStrategy, stratT1, stratT2,
      tieA, tieB, evalStrategy, eligible, goStringContains, predictCTR,
      calculateFinalBidPrice, List.filter, List.filterMap]
    norm_num
  · rw [List.sorted_cons]
    refine ⟨?_, List.sorted_singleton _⟩
    intro b hb
    rw [List.mem_singleton.mp hb]
    norm_num [byPriceDesc, tieA, tieB]

/-! ## Claim theorems: concurrent deductions across instances (C9) -/

theorem lookupNat_setNat_self (l : List (ℕ × ℤ)) (k : ℕ) (v : ℤ) :
    lookupNat (setNat l k v) k = some v := by
  induction l with
  | nil => simp [setNat, lookupNat, List.find?]
  | cons p rest ih =>
    obtain ⟨k', v'⟩ := p
    by_cases h : k' == k
    · simp [setNat, lookupNat, List.find?, h]
    · simpa [setNat, lookupNat, List.find?, h] using ih

theorem lookupNat_setNat_ne (l : List (ℕ × ℤ)) (k k' : ℕ) (v : ℤ) (h : ¬ k' = k) :
    lookupNat (setNat l k v) k' = lookupNat l k' := by
  have hk : (k == k') = false := beq_false_of_ne fun he => h he.symm
  induction l with
  | nil => simp [setNat, lookupNat, List.find?, hk]
  | cons p rest ih =>
    obtain ⟨a, b⟩ := p
    by_cases hak : a = k
    · have hat : (a == k) = true := by simpa using hak
      have haf' : (a == k') = false := beq_false_of_ne fun he => h (hak.symm.trans he).symm
      simp [setNat, lookupNat, List.find?, hat, hk, haf']
    · have haf : (a == k) = false := beq_false_of_ne hak
      by_cases hak' : a = k'
      · have hat' : (a == k') = true := by simpa using hak'
        simp [setNat, lookupNat, List.find?, haf, hat']
      · have haf' : (a == k') = false := beq_false_of_ne hak'
        simpa [setNat, lookupNat, List.find?, haf, haf'] using ih

theorem instanceSum_le_landedSum (l : List (ℕ × ℤ)) (hpos : ∀ c ∈ l, 0 ≤ c.2) (k : ℕ) :
    instanceSum l k ≤ landedSum l := by
  induction l with
  | nil => simp [instanceSum, landedSum]
  | cons c rest ih =>
    have hc := hpos c (List.mem_cons_self c rest)
    have hrest : ∀ x ∈ rest, 0 ≤ x.2 := fun x hx => hpos x (List.mem_cons_of_mem c hx)
    have ih' := ih hrest
    by_cases hk : c.1 == k
    · simp [instanceSum, landedSum, List.filter_cons, hk] at ih' ⊢
      linarith
    · simp [instanceSum, landedSum, List.filter_cons, hk] at ih' ⊢
      linarith

theorem instanceSum_cons_self (l : List (ℕ × ℤ)) (k : ℕ) (a : ℤ) :
    instanceSum ((k, a) :: l) k = a + instanceSum l k := by
  simp [instanceSum, landedSum, List.filter_cons]

theorem instanceSum_cons_ne (l : List (ℕ × ℤ)) (k k' : ℕ) (a : ℤ) (h : ¬ k = k') :
    instanceSum ((k, a) :: l) k' = instanceSum l k' := by
  have hk : (k == k') = false := beq_false_of_ne h
  simp [instanceSum, landedSum, List.filter_cons, hk]

theorem deductCall_inv (cap c0 : ℤ) (hc0 : 0 ≤ c0) (st : MultiState) (call : ℕ × ℤ)
    (hpos : 0 ≤ call.2) (h : MultiInv cap c0 st) :
    MultiInv cap c0 (deductCall cap st call) := by
  obtain ⟨h1, h2, h3, h4⟩ := h
  obtain ⟨k, a⟩ := call
  by_cases hchk : cap < (lookupNat st.snapshot k).getD 0 + a
  · simpa [deductCall, hchk] using ⟨h1, h2, h3, h4⟩
  · have hsnap : (lookupNat st.snapshot k).getD 0 + a ≤ cap := not_lt.mp hchk
    have hcov : instanceSum st.landed k ≤ st.counter := by
      have := instanceSum_le_landedSum st.landed h2 k
      linarith [h1]
    refine ⟨?_, ?_, ?_, ?_⟩ <;> simp only [deductCall, if_neg hchk]
    · simp only [landedSum, List.map_cons, List.sum_cons]
      simp only [landedSum] at h1
      linarith
    · intro c hc
      rcases List.mem_cons.mp hc with hce | hcm
      · rw [hce]
        exact hpos
      · exact h2 c hcm
    · intro j
      by_cases hjk : j = k
      · subst hjk
        rw [instanceSum_cons_self, lookupNat_setNat_self]
        simp only [Option.getD_some]
        linarith
      · rw [instanceSum_cons_ne st.landed k j a (fun he => hjk he.symm),
          lookupNat_setNat_ne st.snapshot k j _ hjk]
        exact h3 j
    · intro j
      by_cases hjk : j = k
      · subst hjk
        rw [instanceSum_cons_self]
        have := h3 j
        linarith
      · rw [instanceSum_cons_ne st.landed k j a (fun he => hjk he.symm)]
        exact h4 j

theorem runCalls_inv (cap c0 : ℤ) (calls : List (ℕ × ℤ)) (hc0 : 0 ≤ c0) (hcap : 0 ≤ cap)
    (hpos : ∀ c ∈ calls, 0 ≤ c.2) :
    MultiInv cap c0 (runCalls cap c0 calls) := by
  have hstep : ∀ (cs : List (ℕ × ℤ)) (st : MultiState), (∀ c ∈ cs, 0 ≤ c.2) →
      MultiInv cap c0 st → MultiInv cap c0 (cs.foldl (deductCall cap) st) := by
    intro cs
    induction cs with
    | nil => exact fun st _ h => h
    | cons c t ih =>
      intro st hcs h
      exact ih (deductCall cap st c) (fun x hx => hcs x (List.mem_cons_of_mem c hx))
        (deductCall_inv cap c0 hc0 st c (hcs c (List.mem_cons_self c t)) h)
  exact hstep calls _ hpos ⟨by simp [landedSum], fun c hc => absurd hc (List.not_mem_nil c),
    fun k => by simp [instanceSum, landedSum, lookupNat, List.find?],
    fun k => by simpa [instanceSum, landedSum] using hcap⟩

/-- Claim C9 (counterexample to the in-flight overshoot bound): instance 0
deducts the full 1.00 cap and its increment lands; afterwards — with no
deduction in flight anywhere — instance 1, whose in-memory snapshot still
reads 0, passes its check for another full-cap deduction.  The shared
counter ends at 200: the cap is overshot by the entire cap although the sum
of in-flight concurrent deductions at the moment of the second check was
zero. -/
theorem runCalls_stale_snapshot_overshoot :
    (runCalls 100 0 [(0, 100)]).counter = 100 ∧
    (lookupNat (runCalls 100 0 [(0, 100)]).snapshot 1).getD 0 = 0 ∧
    (runCalls 100 0 [(0, 100), (1, 100)]).counter = 200 ∧
    (runCalls 100 0 [(0, 100), (1, 100)]).landed = [(1, 100), (0, 100)] := by
  decide

/-- Claim C9 (amended): for every serialisation of concurrent
`CheckAndDeduct` calls with non-negative amounts against one shared
budget, the final counter equals the initial value plus the exact sum of
the landed deductions — every successful call's atomic increment is
counted once, so no deduction is silently lost and the spend is never
undershot — and each single manager instance's own successful deductions
total at most the cap; across instances the cap check reads each
instance's possibly stale snapshot, so this per-instance bound (not the
in-flight volume) is what limits the overshoot. -/
theorem runCalls_sum_and_per_instance_cap (cap c0 : ℤ) (calls : List (ℕ × ℤ))
    (hc0 : 0 ≤ c0) (hcap : 0 ≤ cap) (hpos : ∀ c ∈ calls, 0 ≤ c.2) :
    (runCalls cap c0 calls).counter = c0 + landedSum (runCalls cap c0 calls).landed ∧
    ∀ k, instanceSum (runCalls cap c0 calls).landed k ≤ cap := by
  obtain ⟨h1, _, _, h4⟩ := runCalls_inv cap c0 calls hc0 hcap hpos
  exact ⟨h1, h4⟩

/-- Two 0.60 deductions on two instances against a fresh 1.00 cap: the
final counter is the exact 1.20 sum of the landed deductions (a bounded
overshoot, nothing lost) and each instance stays within the cap on its
own. -/
theorem runCalls_sum_and_per_instance_cap_witness :
    (runCalls 100 0 raceCalls).counter = 0 + landedSum (runCalls 100 0 raceCalls).landed ∧
    ∀ k, instanceSum (runCalls 100 0 raceCalls).landed k ≤ 100 :=
  runCalls_sum_and_per_instance_cap 100 0 raceCalls (by decide) (by decide) (by decide)

end SimpleDsp
